import Mathlib

/-!
Verification development for the EditFlow planner data layer
(`src/hooks/usePlannerData.ts`).

The data model and the operations are translated from the TypeScript
source into executable Lean definitions:

* `Job` / `Editor` mirror the exported interfaces;
* `moveJob` mirrors the optimistic state update inside the `moveJob`
  callback (the `setJobs(prev => ...)` body, lines 248-313);
* `addEditor` mirrors the plan-limit check and insertion (lines 317-362),
  with the backend insert outcome as an explicit parameter;
* `deleteEditor` mirrors the local state update (lines 381-390);
* `getEditorCapacity` mirrors the derived capacity query (lines 416-422),
  with JS numbers embedded as rationals.
-/

namespace EditFlow

inductive Priority where
  | low
  | medium
  | high
deriving DecidableEq, Repr

inductive Status where
  | queued
  | inProgress
  | review
deriving DecidableEq, Repr

/-- The `Job` interface of `usePlannerData.ts`.  `scheduledDate` is the
day index (a JS number, embedded as `Int`), `weekStart` the ISO date
string, `order` the position inside the (editor, day, week) cell. -/
structure Job where
  id : String
  title : String
  clientName : String
  editorId : String
  scheduledDate : Int
  weekStart : String
  estimatedHours : ℚ
  priority : Priority
  status : Status
  order : Int
deriving DecidableEq, Repr

/-- The `Editor` interface of `usePlannerData.ts`. -/
structure Editor where
  id : String
  name : String
  weeklyCapacity : ℚ
deriving DecidableEq, Repr

/-- The per-element update performed by the `prev.map(j => ...)` body of
`moveJob`: `job` is the moved job found by `findIndex`, `jobId`,
`newEditorId`, `newDayIndex`, `newOrder` the arguments of `moveJob`. -/
def moveF (job : Job) (jobId newEditorId : String) (newDayIndex newOrder : Int)
    (j : Job) : Job :=
  if j.id = jobId then
    { j with editorId := newEditorId, scheduledDate := newDayIndex, order := newOrder }
  else if j.editorId = newEditorId ∧ j.scheduledDate = newDayIndex ∧
      j.weekStart = job.weekStart ∧ j.id ≠ jobId then
    if job.editorId = newEditorId ∧ job.scheduledDate = newDayIndex then
      -- wasInSameCell: shift the gap between oldOrder and newOrder
      if newOrder > job.order ∧ j.order > job.order ∧ j.order ≤ newOrder then
        { j with order := j.order - 1 }
      else if newOrder < job.order ∧ j.order ≥ newOrder ∧ j.order < job.order then
        { j with order := j.order + 1 }
      else j
    else
      -- cross-cell: make room in the destination cell
      if j.order ≥ newOrder then { j with order := j.order + 1 } else j
  else j

/-- The optimistic state update of `moveJob` (`setJobs(prev => ...)`,
`usePlannerData.ts` lines 248-313): find the moved job; if absent return
the collection unchanged, otherwise map `moveF` over the whole list. -/
def moveJob (jobs : List Job) (jobId newEditorId : String)
    (newDayIndex newOrder : Int) : List Job :=
  match jobs.find? (fun j => j.id == jobId) with
  | none => jobs
  | some job => jobs.map (moveF job jobId newEditorId newDayIndex newOrder)

/-- The jobs of one (editor, day, week) cell, in list order. -/
def cellJobs (jobs : List Job) (e : String) (d : Int) (w : String) : List Job :=
  jobs.filter (fun j => decide (j.editorId = e ∧ j.scheduledDate = d ∧ j.weekStart = w))

/-- The multiset of `order` values of one cell. -/
def cellOrders (jobs : List Job) (e : String) (d : Int) (w : String) : Multiset Int :=
  Multiset.map Job.order (cellJobs jobs e d w : Multiset Job)

/-- The multiset `{0, 1, …, n-1}` of integers. -/
def intRange (n : Nat) : Multiset Int :=
  Multiset.map (fun (k : Nat) => (k : Int)) (Multiset.range n)

/-- The pure order-value transformation performed on a cell by a same-cell
move: the moved job's old order `a` goes to the destination order `b`, and
the orders strictly between shift by one to close the gap.  This is the
arithmetic content of the `wasInSameCell` branch of `moveJob`. -/
def shiftCycle (a b : Int) (o : Int) : Int :=
  if o = a then b
  else if b > a ∧ o > a ∧ o ≤ b then o - 1
  else if b < a ∧ o ≥ b ∧ o < a then o + 1
  else o

/-- The fields of a job that `moveJob` never touches: title, clientName,
estimatedHours, priority, status and weekStart. -/
def frameFields (j : Job) : String × String × ℚ × Priority × Status × String :=
  (j.title, j.clientName, j.estimatedHours, j.priority, j.status, j.weekStart)

/-- A non-moved job is shifted by `moveJob`'s reindexing rule: it lies in
the destination cell (within the moved job's week) and its order falls in
the active range — the gap-shift ranges for a same-cell move, or
`[destOrder, ∞)` for a cross-cell move. -/
def reindexShifted (job : Job) (destE : String) (destD destOrder : Int) (j : Job) : Prop :=
  j.editorId = destE ∧ j.scheduledDate = destD ∧ j.weekStart = job.weekStart ∧
    (if job.editorId = destE ∧ job.scheduledDate = destD then
      (destOrder > job.order ∧ j.order > job.order ∧ j.order ≤ destOrder) ∨
        (destOrder < job.order ∧ j.order ≥ destOrder ∧ j.order < job.order)
    else destOrder ≤ j.order)

instance (job : Job) (destE : String) (destD destOrder : Int) (j : Job) :
    Decidable (reindexShifted job destE destD destOrder j) := by
  unfold reindexShifted
  infer_instance

/-- The distinguishable failure outcomes of `addEditor`: the synchronous
`PLAN_LIMIT_REACHED` error thrown before any insertion, and a failure of
the backend insert itself. -/
inductive AddEditorError where
  | planLimitReached
  | backendFailure
deriving DecidableEq, Repr

/-- The plan type used by `addEditor`: the `plan_type` read from the
`profiles` table when the lookup succeeds, else the `'free'` default. -/
def effectivePlanType (profile : Option String) : String :=
  profile.getD "free"

/-- `const limit = planType === 'pro' ? 10 : 2`. -/
def planLimit (planType : String) : Nat :=
  if planType = "pro" then 10 else 2

/-- The `addEditor` flow of `usePlannerData.ts` (lines 317-362) for an
authenticated session (the leading `if (!user) return` guard belongs to
the external auth context): read the plan type (defaulting to free),
reject with `PLAN_LIMIT_REACHED` when the editor count is at or above the
plan limit, otherwise insert.  The backend insert is external; its
outcome is the `insertResult` parameter (the server-assigned row on
success). -/
def addEditor (profile : Option String) (editors : List Editor)
    (insertResult : Option Editor) : Except AddEditorError (List Editor) :=
  let planType := effectivePlanType profile
  let limit := planLimit planType
  if editors.length ≥ limit then
    Except.error AddEditorError.planLimitReached
  else
    match insertResult with
    | none => Except.error AddEditorError.backendFailure
    | some newEditor => Except.ok (editors ++ [newEditor])

/-- The local planner state held by the hook: the editor and job lists. -/
structure PlannerState where
  editors : List Editor
  jobs : List Job
deriving DecidableEq, Repr

/-- The `deleteEditor` optimistic update (lines 381-390):
`setEditors(prev => prev.filter(editor => editor.id !== editorId))`; the
job list is not touched. -/
def deleteEditor (s : PlannerState) (editorId : String) : PlannerState :=
  { s with editors := s.editors.filter (fun e => e.id != editorId) }

/-- The `getEditorCapacity` derived query (lines 416-422), with JS
numbers embedded as rationals: `Math.min(100, Math.round((totalHours /
weeklyCapacity) * 100))`, where `weeklyCapacity` is
`editor?.weeklyCapacity || 40` (40 when the editor is absent or its
capacity is the falsy 0). -/
def getEditorCapacity (jobs : List Job) (editors : List Editor)
    (currentWeekStartStr : String) (editorId : String) : Int :=
  let editorJobs := jobs.filter
    (fun j => j.editorId == editorId && j.weekStart == currentWeekStartStr)
  let totalHours : ℚ := editorJobs.foldl (fun sum j => sum + j.estimatedHours) 0
  let weeklyCapacity : ℚ :=
    match editors.find? (fun e => e.id == editorId) with
    | some ed => if ed.weeklyCapacity = 0 then 40 else ed.weeklyCapacity
    | none => 40
  min 100 (round (totalHours / weeklyCapacity * 100))

/-- Concrete fixture: a job in a given cell of the week 2026-01-05. -/
def mkJobIn (id e : String) (d ord : Int) : Job :=
  { id := id, title := "t", clientName := "c", editorId := e, scheduledDate := d,
    weekStart := "2026-01-05", estimatedHours := 1, priority := Priority.low,
    status := Status.queued, order := ord }

/-- Concrete fixture: a job in the cell ("e1", 0, 2026-01-05). -/
def mkJob (id : String) (ord : Int) : Job :=
  mkJobIn id "e1" 0 ord

/-- Concrete fixture: a four-job cell with orders 0..3. -/
def jobs4 : List Job :=
  [mkJob "a" 0, mkJob "b" 1, mkJob "c" 2, mkJob "d" 3]

/-- Concrete fixture: cell ("e1",0) with orders 0..2 and cell ("e2",1)
with orders 0..1. -/
def jobs5 : List Job :=
  [mkJob "a" 0, mkJob "b" 1, mkJob "m" 2, mkJobIn "x" "e2" 1 0, mkJobIn "y" "e2" 1 1]

/-- Concrete fixture: an editor with the default 40-hour capacity. -/
def capEd : Editor :=
  { id := "e1", name := "Alice", weeklyCapacity := 40 }

/-- Concrete fixture: two current-week jobs of 10 and 15 hours for `capEd`. -/
def capJobs : List Job :=
  [{ mkJob "h1" 0 with estimatedHours := 10 }, { mkJob "h2" 1 with estimatedHours := 15 }]

/-- Concrete fixture editors for the plan-limit witness. -/
def wEd1 : Editor := { id := "ed1", name := "A", weeklyCapacity := 40 }

def wEd2 : Editor := { id := "ed2", name := "B", weeklyCapacity := 40 }

def wEd3 : Editor := { id := "ed3", name := "C", weeklyCapacity := 40 }

theorem mem_intRange (n : Nat) (o : Int) : o ∈ intRange n ↔ 0 ≤ o ∧ o < (n : Int) := by
  unfold intRange
  rw [Multiset.mem_map]
  constructor
  · rintro ⟨k, hk, rfl⟩
    rw [Multiset.mem_range] at hk
    omega
  · rintro ⟨h1, h2⟩
    refine ⟨o.toNat, ?_, ?_⟩
    · rw [Multiset.mem_range]
      omega
    · omega

theorem intRange_nodup (n : Nat) : (intRange n).Nodup := by
  unfold intRange
  refine Multiset.Nodup.map ?_ (Multiset.nodup_range n)
  intro a b h
  simpa using h

theorem intRange_card (n : Nat) : Multiset.card (intRange n) = n := by
  simp [intRange]

/-- `shiftCycle a b` permutes `{0, …, n-1}` whenever `a` and `b` lie in it. -/
theorem shiftCycle_perm (n : Nat) (a b : Int)
    (ha : 0 ≤ a) (ha' : a < (n : Int)) (hb : 0 ≤ b) (hb' : b < (n : Int)) :
    Multiset.map (shiftCycle a b) (intRange n) = intRange n := by
  have hmem : ∀ o ∈ intRange n, shiftCycle a b o ∈ intRange n := by
    intro o ho
    rw [mem_intRange] at ho ⊢
    unfold shiftCycle
    split_ifs <;> omega
  have hinj : ∀ x ∈ intRange n, ∀ y ∈ intRange n, shiftCycle a b x = shiftCycle a b y → x = y := by
    intro x hx y hy h
    rw [mem_intRange] at hx hy
    unfold shiftCycle at h
    split_ifs at h <;> omega
  have hnd : (Multiset.map (shiftCycle a b) (intRange n)).Nodup :=
    Multiset.Nodup.map_on hinj (intRange_nodup n)
  have hle : Multiset.map (shiftCycle a b) (intRange n) ≤ intRange n := by
    rw [Multiset.le_iff_subset hnd]
    intro x hx
    obtain ⟨y, hy, rfl⟩ := Multiset.mem_map.mp hx
    exact hmem y hy
  exact Multiset.eq_of_le_of_card_le hle (by simp [intRange_card])

theorem find?_job_id {jobs : List Job} {jobId : String} {job : Job}
    (hfind : jobs.find? (fun j => j.id == jobId) = some job) : job.id = jobId := by
  have h := List.find?_some hfind
  simpa using h

theorem moveJob_eq_map {jobs : List Job} {jobId : String} {job : Job} (e : String) (d o : Int)
    (hfind : jobs.find? (fun j => j.id == jobId) = some job) :
    moveJob jobs jobId e d o = jobs.map (moveF job jobId e d o) := by
  unfold moveJob
  rw [hfind]

theorem moveJob_length (jobs : List Job) (jobId e : String) (d o : Int) :
    (moveJob jobs jobId e d o).length = jobs.length := by
  unfold moveJob
  cases h : jobs.find? (fun j => j.id == jobId) <;> simp

theorem moveF_moved (job : Job) (jobId e : String) (d o : Int) (j : Job) (hid : j.id = jobId) :
    moveF job jobId e d o j = { j with editorId := e, scheduledDate := d, order := o } := by
  unfold moveF
  rw [if_pos hid]

theorem moveF_other (job : Job) (jobId e : String) (d o : Int) (j : Job) (hid : j.id ≠ jobId) :
    moveF job jobId e d o j = { j with order := (moveF job jobId e d o j).order } := by
  unfold moveF
  rw [if_neg hid]
  split_ifs <;> rfl

/-- On a same-cell move, a non-moved job of the cell whose order differs
from the moved job's gets exactly the `shiftCycle` order update. -/
theorem moveF_sameCell_shift (job : Job) (jobId : String) (o : Int) (j : Job)
    (hid : j.id ≠ jobId)
    (hc : j.editorId = job.editorId ∧ j.scheduledDate = job.scheduledDate ∧
      j.weekStart = job.weekStart)
    (hne : j.order ≠ job.order) :
    moveF job jobId job.editorId job.scheduledDate o j
      = { j with order := shiftCycle job.order o j.order } := by
  unfold moveF shiftCycle
  rw [if_neg hid, if_pos ⟨hc.1, hc.2.1, hc.2.2, hid⟩, if_pos ⟨rfl, rfl⟩, if_neg hne]
  split_ifs <;> rfl

/-- Claim C1: for a job collection with pairwise distinct ids in which the
moved job's cell carries order values exactly `{0, …, n-1}`, a move whose
destination cell is the moved job's current cell with `destOrder` in
`[0, n-1]` leaves the cell's multiset of order values exactly
`{0, …, n-1}` — contiguous from 0 and duplicate-free. -/
theorem moveJob_sameCell_orders_complete
    (jobs : List Job) (jobId : String) (job : Job) (destOrder : Int) (n : Nat)
    (hnodup : (jobs.map Job.id).Nodup)
    (hfind : jobs.find? (fun j => j.id == jobId) = some job)
    (hcell : cellOrders jobs job.editorId job.scheduledDate job.weekStart = intRange n)
    (h0 : 0 ≤ destOrder) (hn : destOrder < (n : Int)) :
    cellOrders (moveJob jobs jobId job.editorId job.scheduledDate destOrder)
      job.editorId job.scheduledDate job.weekStart = intRange n := by
  have hjid : job.id = jobId := find?_job_id hfind
  have hjmem : job ∈ jobs := List.mem_of_find?_eq_some hfind
  have huniq : ∀ j ∈ jobs, j.id = jobId → j = job := by
    intro j hj h
    exact List.inj_on_of_nodup_map hnodup hj hjmem (h.trans hjid.symm)
  have hjobsnd : jobs.Nodup := List.Nodup.of_map Job.id hnodup
  set e := job.editorId with he
  set d := job.scheduledDate with hd
  set w := job.weekStart with hw
  set F := moveF job jobId e d destOrder with hF
  have hFmoved : F job = { job with order := destOrder } := by
    rw [hF, moveF_moved job jobId e d destOrder job hjid]
  set P : Job → Bool :=
    fun j => decide (j.editorId = e ∧ j.scheduledDate = d ∧ j.weekStart = w) with hP
  have hPF : ∀ j ∈ jobs, P (F j) = P j := by
    intro j hj
    by_cases hid : j.id = jobId
    · rw [huniq j hj hid, hFmoved]
    · rw [hF, moveF_other job jobId e d destOrder j hid]
  have hfilter : cellJobs (jobs.map F) e d w = (cellJobs jobs e d w).map F := by
    unfold cellJobs
    rw [List.filter_map]
    congr 1
    exact List.filter_congr (fun j hj => hPF j hj)
  have hjobcell : job ∈ cellJobs jobs e d w := by
    unfold cellJobs
    rw [List.mem_filter]
    exact ⟨hjmem, by simp⟩
  set S : Multiset Job := (cellJobs jobs e d w : Multiset Job) with hS
  have hSnodup : S.Nodup := by
    rw [hS]
    exact Multiset.coe_nodup.mpr (List.Nodup.filter _ hjobsnd)
  have hjmemS : job ∈ S := by
    rw [hS]
    exact Multiset.mem_coe.mpr hjobcell
  have hconsS : job ::ₘ S.erase job = S := Multiset.cons_erase hjmemS
  have hordS : Multiset.map Job.order S = intRange n := hcell
  have hordT : job.order ::ₘ Multiset.map Job.order (S.erase job) = intRange n := by
    have h := hordS
    rw [← hconsS, Multiset.map_cons] at h
    exact h
  have hnotmemT : job.order ∉ Multiset.map Job.order (S.erase job) := by
    have hnd := intRange_nodup n
    rw [← hordT] at hnd
    exact (Multiset.nodup_cons.mp hnd).1
  have hjordrange : 0 ≤ job.order ∧ job.order < (n : Int) :=
    (mem_intRange n job.order).mp (by rw [← hordT]; exact Multiset.mem_cons_self _ _)
  have hTmem : ∀ j ∈ S.erase job,
      j ∈ jobs ∧ (j.editorId = e ∧ j.scheduledDate = d ∧ j.weekStart = w) ∧ j ≠ job := by
    intro j hjT
    have h1 := (Multiset.Nodup.mem_erase_iff hSnodup).mp hjT
    have h2 : j ∈ cellJobs jobs e d w := by
      have := h1.2
      rw [hS] at this
      exact Multiset.mem_coe.mp this
    unfold cellJobs at h2
    rw [List.mem_filter] at h2
    refine ⟨h2.1, ?_, h1.1⟩
    have := h2.2
    simpa using this
  rw [moveJob_eq_map e d destOrder hfind]
  unfold cellOrders
  rw [hfilter, ← Multiset.map_coe, ← hS, Multiset.map_map, ← hconsS, Multiset.map_cons]
  have h1 : (Job.order ∘ F) job = shiftCycle job.order destOrder job.order := by
    simp [Function.comp, hFmoved, shiftCycle]
  have h2 : Multiset.map (Job.order ∘ F) (S.erase job)
      = Multiset.map (shiftCycle job.order destOrder ∘ Job.order) (S.erase job) := by
    refine Multiset.map_congr rfl ?_
    intro j hj
    obtain ⟨hjjobs, hcellj, hnej⟩ := hTmem j hj
    have hidne : j.id ≠ jobId := fun h => hnej (huniq j hjjobs h)
    have hordne : j.order ≠ job.order := by
      intro h
      apply hnotmemT
      rw [← h]
      exact Multiset.mem_map_of_mem Job.order hj
    have hshift := moveF_sameCell_shift job jobId destOrder j hidne hcellj hordne
    simp only [Function.comp]
    rw [hF, hshift]
  rw [h1, h2, ← Multiset.map_map, ← Multiset.map_cons, hordT]
  exact shiftCycle_perm n job.order destOrder hjordrange.1 hjordrange.2 h0 hn

/-- Claim C2: on a same-cell move, `moveJob` gives the moved job the
destination order, decrements exactly the other cell jobs with order in
`(oldOrder, destOrder]` when `destOrder > oldOrder`, increments exactly
those with order in `[destOrder, oldOrder)` when `destOrder < oldOrder`,
and leaves every other job's order (and all its other fields)
unchanged. -/
theorem moveJob_sameCell_ranges
    (jobs : List Job) (jobId : String) (job : Job) (destOrder : Int)
    (hfind : jobs.find? (fun j => j.id == jobId) = some job) :
    ∀ (i : Nat) (hi : i < jobs.length),
      (moveJob jobs jobId job.editorId job.scheduledDate destOrder)[i]? =
        some (if jobs[i].id = jobId then
            { jobs[i] with
              editorId := job.editorId, scheduledDate := job.scheduledDate, order := destOrder }
          else if jobs[i].editorId = job.editorId ∧ jobs[i].scheduledDate = job.scheduledDate ∧
              jobs[i].weekStart = job.weekStart then
            if destOrder > job.order ∧ jobs[i].order > job.order ∧ jobs[i].order ≤ destOrder then
              { jobs[i] with order := jobs[i].order - 1 }
            else if destOrder < job.order ∧ jobs[i].order ≥ destOrder ∧
                jobs[i].order < job.order then
              { jobs[i] with order := jobs[i].order + 1 }
            else jobs[i]
          else jobs[i]) := by
  intro i hi
  rw [moveJob_eq_map _ _ _ hfind, List.getElem?_map, List.getElem?_eq_getElem hi,
    Option.map_some']
  congr 1
  unfold moveF
  by_cases hid : jobs[i].id = jobId
  · rw [if_pos hid, if_pos hid]
  · rw [if_neg hid, if_neg hid]
    by_cases hc : jobs[i].editorId = job.editorId ∧ jobs[i].scheduledDate = job.scheduledDate ∧
        jobs[i].weekStart = job.weekStart
    · rw [if_pos ⟨hc.1, hc.2.1, hc.2.2, hid⟩, if_pos ⟨rfl, rfl⟩, if_pos hc]
    · rw [if_neg (fun h => hc ⟨h.1, h.2.1, h.2.2.1⟩), if_neg hc]

/-- Claim C3: on a cross-cell move, the moved job takes the destination
editor, day and order; every other job of the destination cell (in the
moved job's week) with order `≥ destOrder` is incremented by one; all
other jobs — in particular those remaining in the vacated source cell —
are unchanged. -/
theorem moveJob_crossCell_char
    (jobs : List Job) (jobId destE : String) (destD destOrder : Int) (job : Job)
    (hfind : jobs.find? (fun j => j.id == jobId) = some job)
    (hcross : ¬(job.editorId = destE ∧ job.scheduledDate = destD)) :
    (∀ (i : Nat) (hi : i < jobs.length),
      (moveJob jobs jobId destE destD destOrder)[i]? =
        some (if jobs[i].id = jobId then
            { jobs[i] with editorId := destE, scheduledDate := destD, order := destOrder }
          else if jobs[i].editorId = destE ∧ jobs[i].scheduledDate = destD ∧
              jobs[i].weekStart = job.weekStart ∧ destOrder ≤ jobs[i].order then
            { jobs[i] with order := jobs[i].order + 1 }
          else jobs[i]))
    ∧ (∀ (i : Nat) (hi : i < jobs.length), jobs[i].id ≠ jobId →
        jobs[i].editorId = job.editorId → jobs[i].scheduledDate = job.scheduledDate →
        (moveJob jobs jobId destE destD destOrder)[i]? = some jobs[i]) := by
  have hmain : ∀ (i : Nat) (hi : i < jobs.length),
      (moveJob jobs jobId destE destD destOrder)[i]? =
        some (if jobs[i].id = jobId then
            { jobs[i] with editorId := destE, scheduledDate := destD, order := destOrder }
          else if jobs[i].editorId = destE ∧ jobs[i].scheduledDate = destD ∧
              jobs[i].weekStart = job.weekStart ∧ destOrder ≤ jobs[i].order then
            { jobs[i] with order := jobs[i].order + 1 }
          else jobs[i]) := by
    intro i hi
    rw [moveJob_eq_map _ _ _ hfind, List.getElem?_map, List.getElem?_eq_getElem hi,
      Option.map_some']
    congr 1
    unfold moveF
    by_cases hid : jobs[i].id = jobId
    · rw [if_pos hid, if_pos hid]
    · rw [if_neg hid, if_neg hid]
      by_cases hc : jobs[i].editorId = destE ∧ jobs[i].scheduledDate = destD ∧
          jobs[i].weekStart = job.weekStart
      · rw [if_pos ⟨hc.1, hc.2.1, hc.2.2, hid⟩, if_neg hcross]
        by_cases hord : destOrder ≤ jobs[i].order
        · rw [if_pos hord, if_pos ⟨hc.1, hc.2.1, hc.2.2, hord⟩]
        · rw [if_neg hord, if_neg (fun h => hord h.2.2.2)]
      · rw [if_neg (fun h => hc ⟨h.1, h.2.1, h.2.2.1⟩),
          if_neg (fun h => hc ⟨h.1, h.2.1, h.2.2.1⟩)]
  refine ⟨hmain, ?_⟩
  intro i hi hid hE hD
  rw [hmain i hi, if_neg hid,
    if_neg (fun h => hcross ⟨hE ▸ h.1, hD ▸ h.2.1⟩)]

/-- Claim C4: `moveJob` with a `jobId` not present in the collection
returns the collection unchanged, for any destination arguments. -/
theorem moveJob_missing_id (jobs : List Job) (jobId e : String) (d o : Int)
    (habs : ∀ j ∈ jobs, j.id ≠ jobId) :
    moveJob jobs jobId e d o = jobs := by
  unfold moveJob
  have hnone : jobs.find? (fun j => j.id == jobId) = none := by
    rw [List.find?_eq_none]
    intro j hj
    simpa using habs j hj
  rw [hnone]

/-- Claim C5: moving a job to its own current cell and current order is a
no-op — the returned collection equals the input, so every job keeps its
order, editorId and scheduledDate. -/
theorem moveJob_self_noop
    (jobs : List Job) (jobId : String) (job : Job)
    (hnodup : (jobs.map Job.id).Nodup)
    (hfind : jobs.find? (fun j => j.id == jobId) = some job) :
    moveJob jobs jobId job.editorId job.scheduledDate job.order = jobs := by
  have hjid : job.id = jobId := find?_job_id hfind
  have hjmem : job ∈ jobs := List.mem_of_find?_eq_some hfind
  have huniq : ∀ j ∈ jobs, j.id = jobId → j = job := by
    intro j hj h
    exact List.inj_on_of_nodup_map hnodup hj hjmem (h.trans hjid.symm)
  rw [moveJob_eq_map _ _ _ hfind]
  have hfix : ∀ j ∈ jobs, moveF job jobId job.editorId job.scheduledDate job.order j = j := by
    intro j hj
    by_cases hid : j.id = jobId
    · rw [huniq j hj hid, moveF_moved job jobId _ _ _ job hjid]
    · unfold moveF
      rw [if_neg hid, if_pos (⟨rfl, rfl⟩ :
        job.editorId = job.editorId ∧ job.scheduledDate = job.scheduledDate)]
      split_ifs <;> first | rfl | omega
  have := List.map_congr_left (g := id) hfix
  simpa using this

/-- Claim C6: `moveJob` alters only the moved job and the jobs shifted by
the reindexing rule — every other job is returned value-identical — and
it never changes any job's title, clientName, estimatedHours, priority,
status or weekStart. -/
theorem moveJob_frame
    (jobs : List Job) (jobId destE : String) (destD destOrder : Int) (job : Job)
    (hfind : jobs.find? (fun j => j.id == jobId) = some job) :
    (∀ (i : Nat) (hi : i < jobs.length), jobs[i].id ≠ jobId →
      ¬ reindexShifted job destE destD destOrder jobs[i] →
      (moveJob jobs jobId destE destD destOrder)[i]? = some jobs[i])
    ∧ (∀ (i : Nat) (hi : i < jobs.length),
      ((moveJob jobs jobId destE destD destOrder)[i]?).map frameFields
        = some (frameFields jobs[i])) := by
  constructor
  · intro i hi hid hshift
    rw [moveJob_eq_map _ _ _ hfind, List.getElem?_map, List.getElem?_eq_getElem hi,
      Option.map_some']
    congr 1
    unfold moveF
    rw [if_neg hid]
    unfold reindexShifted at hshift
    by_cases hc : jobs[i].editorId = destE ∧ jobs[i].scheduledDate = destD ∧
        jobs[i].weekStart = job.weekStart
    · rw [if_pos ⟨hc.1, hc.2.1, hc.2.2, hid⟩]
      have hnif : ¬ (if job.editorId = destE ∧ job.scheduledDate = destD then
          (destOrder > job.order ∧ jobs[i].order > job.order ∧ jobs[i].order ≤ destOrder) ∨
            (destOrder < job.order ∧ jobs[i].order ≥ destOrder ∧ jobs[i].order < job.order)
        else destOrder ≤ jobs[i].order) :=
        fun h => hshift ⟨hc.1, hc.2.1, hc.2.2, h⟩
      by_cases hsc : job.editorId = destE ∧ job.scheduledDate = destD
      · rw [if_pos hsc] at hnif
        rw [if_pos hsc, if_neg (fun h => hnif (Or.inl h)),
          if_neg (fun h => hnif (Or.inr h))]
      · rw [if_neg hsc] at hnif
        rw [if_neg hsc, if_neg hnif]
    · rw [if_neg (fun h => hc ⟨h.1, h.2.1, h.2.2.1⟩)]
  · intro i hi
    rw [moveJob_eq_map _ _ _ hfind, List.getElem?_map, List.getElem?_eq_getElem hi,
      Option.map_some', Option.map_some']
    congr 1
    unfold moveF frameFields
    split_ifs <;> rfl

/-- Claim C10: `moveJob` never changes any job's weekStart — the moved
job keeps its original week even when its editor and day change — and a
job in a different week than the moved job's is never reindexed. -/
theorem moveJob_weekStart_invariant
    (jobs : List Job) (jobId destE : String) (destD destOrder : Int) (job : Job)
    (hfind : jobs.find? (fun j => j.id == jobId) = some job) :
    (∀ (i : Nat) (hi : i < jobs.length),
      ((moveJob jobs jobId destE destD destOrder)[i]?).map Job.weekStart
        = some jobs[i].weekStart)
    ∧ (∀ (i : Nat) (hi : i < jobs.length), jobs[i].weekStart ≠ job.weekStart →
        jobs[i].id ≠ jobId →
        (moveJob jobs jobId destE destD destOrder)[i]? = some jobs[i]) := by
  constructor
  · intro i hi
    rw [moveJob_eq_map _ _ _ hfind, List.getElem?_map, List.getElem?_eq_getElem hi,
      Option.map_some', Option.map_some']
    congr 1
    unfold moveF
    split_ifs <;> rfl
  · intro i hi hw hid
    rw [moveJob_eq_map _ _ _ hfind, List.getElem?_map, List.getElem?_eq_getElem hi,
      Option.map_some']
    congr 1
    unfold moveF
    rw [if_neg hid, if_neg (fun h => hw h.2.2.1)]

/-- Claim C7: `addEditor` fails with the distinguished plan-limit error,
inserting nothing, exactly when the editor count is at or above the
plan's limit — 2 for the free/default tier, 10 for pro; any successful
insertion implies the count was below the limit. -/
theorem addEditor_plan_limit
    (profile : Option String) (editors : List Editor) (insertResult : Option Editor) :
    (addEditor profile editors insertResult
        = Except.error AddEditorError.planLimitReached ↔
      planLimit (effectivePlanType profile) ≤ editors.length)
    ∧ (∀ result, addEditor profile editors insertResult = Except.ok result →
        editors.length < planLimit (effectivePlanType profile) ∧
          ∃ newEd, insertResult = some newEd ∧ result = editors ++ [newEd])
    ∧ planLimit (effectivePlanType none) = 2 ∧ planLimit "free" = 2
    ∧ planLimit "pro" = 10 := by
  refine ⟨?_, ?_, rfl, rfl, rfl⟩
  · simp only [addEditor]
    split_ifs with h
    · simpa using h
    · cases insertResult <;> simpa using h
  · intro result hres
    simp only [addEditor] at hres
    by_cases h : editors.length ≥ planLimit (effectivePlanType profile)
    · rw [if_pos h] at hres
      exact Except.noConfusion hres
    · rw [if_neg h] at hres
      cases hins : insertResult with
      | none => rw [hins] at hres; exact Except.noConfusion hres
      | some newEd =>
        rw [hins] at hres
        simp at hres
        exact ⟨by omega, newEd, rfl, hres.symm⟩

/-- JS computes `min(100, round(x))` while the spec states
`round(min(100, x))`; the two agree because rounding is monotone and
fixes 100. -/
theorem min_round_eq_round_min (x : ℚ) :
    min (100 : ℤ) (round x) = round (min (100 : ℚ) x) := by
  rcases le_total x 100 with h | h
  · rw [min_eq_right h]
    have hle : round x ≤ (100 : ℤ) := by
      rw [round_eq]
      have h1 : ⌊x + 1 / 2⌋ ≤ ⌊(100 : ℚ) + 1 / 2⌋ := Int.floor_le_floor (by linarith)
      have h2 : ⌊(100 : ℚ) + 1 / 2⌋ = 100 := by
        rw [Int.floor_eq_iff]
        norm_num
      omega
    rw [min_eq_right hle]
  · rw [min_eq_left h]
    have hge : (100 : ℤ) ≤ round x := by
      rw [round_eq]
      have h1 : ⌊(100 : ℚ)⌋ ≤ ⌊x + 1 / 2⌋ := Int.floor_le_floor (by linarith)
      have h2 : ⌊(100 : ℚ)⌋ = 100 := by norm_num
      omega
    rw [min_eq_left hge]
    have h3 : round ((100 : ℚ)) = 100 := by
      rw [round_eq]
      rw [Int.floor_eq_iff]
      norm_num
    omega

/-- Claim C8: `getEditorCapacity` returns
`round(min(100, 100 * Σ estimatedHours / weeklyCapacity))` over the
editor's current-week jobs, with `weeklyCapacity = 40` when the editor is
absent. -/
theorem getEditorCapacity_spec
    (jobs : List Job) (editors : List Editor) (week editorId : String) :
    (∀ ed : Editor, editors.find? (fun e => e.id == editorId) = some ed →
      0 < ed.weeklyCapacity →
      getEditorCapacity jobs editors week editorId =
        round (min (100 : ℚ) (100 *
          ((jobs.filter (fun j => j.editorId == editorId && j.weekStart == week)).map
            Job.estimatedHours).sum / ed.weeklyCapacity)))
    ∧ (editors.find? (fun e => e.id == editorId) = none →
      getEditorCapacity jobs editors week editorId =
        round (min (100 : ℚ) (100 *
          ((jobs.filter (fun j => j.editorId == editorId && j.weekStart == week)).map
            Job.estimatedHours).sum / 40))) := by
  have hsum : (jobs.filter (fun j => j.editorId == editorId && j.weekStart == week)).foldl
      (fun sum j => sum + j.estimatedHours) (0 : ℚ)
      = ((jobs.filter (fun j => j.editorId == editorId && j.weekStart == week)).map
          Job.estimatedHours).sum := by
    rw [List.sum_eq_foldl, List.foldl_map]
  constructor
  · intro ed hfind hpos
    simp only [getEditorCapacity]
    rw [hfind]
    simp only [hsum]
    rw [if_neg (ne_of_gt hpos)]
    rw [show ((jobs.filter (fun j => j.editorId == editorId && j.weekStart == week)).map
        Job.estimatedHours).sum / ed.weeklyCapacity * 100
      = 100 * ((jobs.filter (fun j => j.editorId == editorId && j.weekStart == week)).map
        Job.estimatedHours).sum / ed.weeklyCapacity from by ring]
    exact min_round_eq_round_min _
  · intro hfind
    simp only [getEditorCapacity]
    rw [hfind]
    simp only [hsum]
    rw [show ((jobs.filter (fun j => j.editorId == editorId && j.weekStart == week)).map
        Job.estimatedHours).sum / 40 * 100
      = 100 * ((jobs.filter (fun j => j.editorId == editorId && j.weekStart == week)).map
        Job.estimatedHours).sum / 40 from by ring]
    exact min_round_eq_round_min _

/-- Claim C9: `deleteEditor` removes exactly the editor with the given id
from the editor list and leaves the job list — every job, every field,
including `editorId` — unchanged. -/
theorem deleteEditor_frame (s : PlannerState) (editorId : String) :
    (deleteEditor s editorId).jobs = s.jobs
    ∧ ∀ e : Editor, e ∈ (deleteEditor s editorId).editors ↔ e ∈ s.editors ∧ e.id ≠ editorId := by
  refine ⟨rfl, ?_⟩
  intro e
  simp [deleteEditor, List.mem_filter, bne_iff_ne]

/-- Witness for C1: moving the order-3 job of a 4-job cell to order 0
leaves the cell's orders exactly `{0,1,2,3}`. -/
theorem moveJob_sameCell_orders_complete_witness :
    cellOrders (moveJob jobs4 "d" (mkJob "d" 3).editorId (mkJob "d" 3).scheduledDate 0)
      (mkJob "d" 3).editorId (mkJob "d" 3).scheduledDate (mkJob "d" 3).weekStart
      = intRange 4 :=
  moveJob_sameCell_orders_complete jobs4 "d" (mkJob "d" 3) 0 4
    (by decide) (by decide) (by decide) (by decide) (by decide)

/-- Witness for C2: moving the order-3 job "d" to order 0 in a 4-job
cell gives the moved job order 0 and shifts the job originally at
order 0 to order 1. -/
theorem moveJob_sameCell_ranges_witness :
    (moveJob jobs4 "d" (mkJob "d" 3).editorId (mkJob "d" 3).scheduledDate 0)[3]?
      = some (mkJob "d" 0)
    ∧ (moveJob jobs4 "d" (mkJob "d" 3).editorId (mkJob "d" 3).scheduledDate 0)[0]?
      = some (mkJob "a" 1) := by
  constructor
  · rw [moveJob_sameCell_ranges jobs4 "d" (mkJob "d" 3) 0 (by decide) 3 (by decide)]
    decide
  · rw [moveJob_sameCell_ranges jobs4 "d" (mkJob "d" 3) 0 (by decide) 0 (by decide)]
    decide

/-- Witness for C3: a cross-cell move to ("e2", 1) at order 0 increments
the destination-cell job that was at order 0. -/
theorem moveJob_crossCell_char_witness :
    (moveJob jobs5 "m" "e2" 1 0)[3]? = some (mkJobIn "x" "e2" 1 1) := by
  rw [(moveJob_crossCell_char jobs5 "m" "e2" 1 0 (mkJob "m" 2)
    (by decide) (by decide)).1 3 (by decide)]
  decide

/-- Witness for C4: a move instruction naming an absent job id returns
the collection unchanged. -/
theorem moveJob_missing_id_witness :
    moveJob jobs4 "zz" "e9" 4 0 = jobs4 :=
  moveJob_missing_id jobs4 "zz" "e9" 4 0 (by decide)

/-- Witness for C5: moving job "b" to its own cell and own order is the
identity on the collection. -/
theorem moveJob_self_noop_witness :
    moveJob jobs4 "b" (mkJob "b" 1).editorId (mkJob "b" 1).scheduledDate
      (mkJob "b" 1).order = jobs4 :=
  moveJob_self_noop jobs4 "b" (mkJob "b" 1) (by decide) (by decide)

/-- Witness for C6: a cross-cell move of "m" leaves the source-cell job
"a" value-identical. -/
theorem moveJob_frame_witness :
    (moveJob jobs5 "m" "e2" 1 0)[0]? = some (mkJob "a" 0) := by
  rw [(moveJob_frame jobs5 "m" "e2" 1 0 (mkJob "m" 2) (by decide)).1 0
    (by decide) (by decide) (by decide)]
  decide

/-- Witness for C10: after a cross-cell move the moved job "m" keeps its
original weekStart. -/
theorem moveJob_weekStart_invariant_witness :
    ((moveJob jobs5 "m" "e2" 1 0)[2]?).map Job.weekStart = some "2026-01-05" := by
  rw [(moveJob_weekStart_invariant jobs5 "m" "e2" 1 0 (mkJob "m" 2) (by decide)).1 2 (by decide)]
  decide

/-- Witness for C7: adding a 3rd editor under the free plan raises the
plan-limit condition (and hence inserts nothing). -/
theorem addEditor_plan_limit_witness :
    addEditor (some "free") [wEd1, wEd2] (some wEd3)
      = Except.error AddEditorError.planLimitReached :=
  (addEditor_plan_limit (some "free") [wEd1, wEd2] (some wEd3)).1.mpr (by decide)

/-- Witness for C8: weeklyCapacity 40 with current-week jobs of 10 and 15
hours gives round(100 * 25 / 40) = 63. -/
theorem getEditorCapacity_spec_witness :
    getEditorCapacity capJobs [capEd] "2026-01-05" "e1" = 63 := by
  rw [(getEditorCapacity_spec capJobs [capEd] "2026-01-05" "e1").1 capEd
    (by decide) (by decide)]
  have hS : ((capJobs.filter
      (fun j => j.editorId == "e1" && j.weekStart == "2026-01-05")).map
      Job.estimatedHours).sum = (25 : ℚ) := by
    norm_num [capJobs, mkJob, mkJobIn]
  rw [hS]
  norm_num [capEd, round_eq, min_def]

end EditFlow
